import Mathlib

/-! Verification of the data aggregation and filtering pipeline of the BRT
sentiment dashboard: the `data-processor` module (`processSentimentOverTime`,
`processTagsDistribution`) and the Dashboard component's filter engine and
summary totals.

Modelling conventions of this shallow embedding:
* CSV-sourced row fields are strings (the CSV parsing step yields strings).
* The JS string operations used by the pipeline (`trim`, `split`,
  `toLowerCase`, `toUpperCase`) are modelled over the character list of the
  string, restricted to ASCII case mapping, which covers the dataset's labels.
* A JS string-keyed record used as an accumulator is modelled as an
  insertion-ordered association list, matching JS insertion-order iteration
  for string keys.
* JS date values are modelled as calendar dates `(year, month, day)`;
  `new Date(s)` and date-fns `parseISO(s)` are modelled for dash-separated
  digit strings, every other string being an Invalid Date (`none`).
* `Array.prototype.sort` (stable per the ES spec) is modelled by
  `List.insertionSort`, which is stable.
* `Number(x) || 0` is modelled for integer-formatted strings. -/

namespace BRTDashboard

/-! ### JS string primitives -/

def isJsSpace (c : Char) : Bool :=
  c == ' ' || c == '\t' || c == '\n' || c == '\r'

/-- JS `String.prototype.trim` (ASCII whitespace). -/
def trimChars (cs : List Char) : List Char :=
  ((cs.dropWhile isJsSpace).reverse.dropWhile isJsSpace).reverse

/-- JS `String.prototype.split(sep)` for a one-character separator. -/
def splitChars (sep : Char) : List Char → List (List Char)
  | [] => [[]]
  | c :: cs =>
    if c = sep then [] :: splitChars sep cs
    else
      match splitChars sep cs with
      | [] => [[c]]
      | g :: gs => (c :: g) :: gs

def lowerChar (c : Char) : Char :=
  if 'A' ≤ c ∧ c ≤ 'Z' then Char.ofNat (c.toNat + 32) else c

def upperChar (c : Char) : Char :=
  if 'a' ≤ c ∧ c ≤ 'z' then Char.ofNat (c.toNat - 32) else c

def jsTrim (s : String) : String := (trimChars s.data).asString

def jsToLower (s : String) : String := (s.data.map lowerChar).asString

def jsToUpper (s : String) : String := (s.data.map upperChar).asString

def jsSplitOn (sep : Char) (s : String) : List String :=
  (splitChars sep s.data).map List.asString

/-- Numeric value of a list of decimal digits (`none` on any non-digit
character). -/
def digitsValue (cs : List Char) : Option Nat :=
  cs.foldl (fun acc c =>
    match acc with
    | none => none
    | some n => if c.isDigit then some (n * 10 + (c.toNat - 48)) else none) (some 0)

/-- `some n` exactly when `cs` is a nonempty string of decimal digits. -/
def digitsToNat (cs : List Char) : Option Nat :=
  if cs = [] then none else digitsValue cs

/-- Model of JS `Number(x) || 0` on integer-formatted strings: surrounding
whitespace is ignored, and both the empty string (`Number('') = 0`) and a
non-numeric string (`NaN || 0 = 0`) give `0`. -/
def jsNumberOrZero (s : String) : Int :=
  match trimChars s.data with
  | [] => 0
  | '-' :: rest => -((digitsToNat rest).getD 0 : Int)
  | cs => ((digitsToNat cs).getD 0 : Int)

/-! ### Dates -/

structure SimpleDate where
  year : Nat
  month : Nat
  day : Nat
deriving Repr, DecidableEq

/-- A calendar date with the month and day in range (day-in-month lengths are
not modelled beyond the 1..31 bound). -/
def mkValidDate (y m d : Nat) : Option SimpleDate :=
  if 1 ≤ m ∧ m ≤ 12 ∧ 1 ≤ d ∧ d ≤ 31 then some ⟨y, m, d⟩ else none

/-- Model of `new Date(s)` validity and value for `Y-M-D` digit strings
(4-digit year, 1 or 2 digit month and day, as accepted by the JS engines the
dashboard runs on); any other string is an Invalid Date. -/
def jsParseDate (s : String) : Option SimpleDate :=
  match splitChars '-' s.data with
  | [ys, ms, ds] =>
    if ys.length = 4 ∧ 1 ≤ ms.length ∧ ms.length ≤ 2 ∧ 1 ≤ ds.length ∧ ds.length ≤ 2 then
      match digitsToNat ys, digitsToNat ms, digitsToNat ds with
      | some y, some m, some d => mkValidDate y m d
      | _, _, _ => none
    else none
  | _ => none

/-- Model of date-fns `parseISO` for date-only strings: strict `YYYY-MM-DD`. -/
def parseISO (s : String) : Option SimpleDate :=
  match splitChars '-' s.data with
  | [ys, ms, ds] =>
    if ys.length = 4 ∧ ms.length = 2 ∧ ds.length = 2 then
      match digitsToNat ys, digitsToNat ms, digitsToNat ds with
      | some y, some m, some d => mkValidDate y m d
      | _, _, _ => none
    else none
  | _ => none

/-- Chronological index of a calendar date, strictly monotone in calendar
order for in-range dates; stands in for `Date.getTime()`. -/
def dateIndex (d : SimpleDate) : Nat :=
  d.year * 10000 + d.month * 100 + d.day

/-! ### Record model -/

structure RawData where
  dateOfTweet : String
  sentimentText : String
  totalEngagements : String
  numberOfReplies : String
  tags : String
  mergedLabel : String
deriving Repr, DecidableEq

structure ProcessedSentiment where
  date : String
  positive : Nat
  negative : Nat
  neutral : Nat
  totalEngagements : Int
  totalReplies : Int
deriving Repr, DecidableEq

structure ProcessedTag where
  tag : String
  positive : Nat
  negative : Nat
  neutral : Nat
  total : Nat
deriving Repr, DecidableEq

/-! ### `processSentimentOverTime` (data-processor, lines 29-57) -/

def emptySentiment (d : String) : ProcessedSentiment := ⟨d, 0, 0, 0, 0, 0⟩

/-- One row's update of its date bucket (lines 47-53): at most one sentiment
counter increments, on a case-insensitive exact match, and the coerced
engagement and reply numbers are added unconditionally. -/
def updateSentiment (row : RawData) (e : ProcessedSentiment) : ProcessedSentiment :=
  let s := jsToLower row.sentimentText
  let e :=
    if s = "positive" then { e with positive := e.positive + 1 }
    else if s = "negative" then { e with negative := e.negative + 1 }
    else if s = "neutral" then { e with neutral := e.neutral + 1 }
    else e
  { e with
      totalEngagements := e.totalEngagements + jsNumberOrZero row.totalEngagements
      totalReplies := e.totalReplies + jsNumberOrZero row.numberOfReplies }

/-- The `grouped[dateStr]` upsert: update the bucket for `key` in place, or
append a fresh bucket at the end (JS records iterate string keys in insertion
order). -/
def upsertSentiment (key : String) (row : RawData) :
    List ProcessedSentiment → List ProcessedSentiment
  | [] => [updateSentiment row (emptySentiment key)]
  | e :: es =>
    if e.date = key then updateSentiment row e :: es else e :: upsertSentiment key row es

/-- The accumulation loop of `processSentimentOverTime`: rows with an empty
(falsy) `Date of Tweet` are skipped; all other rows are grouped by the exact
date string. -/
def groupedSentiment (data : List RawData) : List ProcessedSentiment :=
  data.foldl
    (fun acc row =>
      if row.dateOfTweet = "" then acc else upsertSentiment row.dateOfTweet row acc) []

/-- The sort comparator `new Date(a.date).getTime() - new Date(b.date).getTime()`
(ascending); a NaN comparison result (Invalid Date) causes no swap, i.e.
behaves as `≤`. -/
def sentLeB (a b : ProcessedSentiment) : Bool :=
  match jsParseDate a.date, jsParseDate b.date with
  | some x, some y => dateIndex x ≤ dateIndex y
  | _, _ => true

def sentLe (a b : ProcessedSentiment) : Prop := sentLeB a b = true

instance : DecidableRel sentLe := fun a b => instDecidableEqBool (sentLeB a b) true

def processSentimentOverTime (data : List RawData) : List ProcessedSentiment :=
  (groupedSentiment data).insertionSort sentLe

/-! ### `processTagsDistribution` (data-processor, lines 59-81) -/

/-- `row.tags.split(',').map(t => t.trim()).filter(t => t && t !== 'OTHERS')`. -/
def splitTags (s : String) : List String :=
  ((jsSplitOn ',' s).map jsTrim).filter fun t => !(t == "") && !(t == "OTHERS")

/-- One row's update of one tag bucket (lines 73-76): sentiment counter rule
as for date buckets, and `total` increments unconditionally. -/
def updateTag (s : String) (e : ProcessedTag) : ProcessedTag :=
  let e :=
    if s = "positive" then { e with positive := e.positive + 1 }
    else if s = "negative" then { e with negative := e.negative + 1 }
    else if s = "neutral" then { e with neutral := e.neutral + 1 }
    else e
  { e with total := e.total + 1 }

/-- The `tagMap[tag]` upsert (insertion-ordered, like `grouped`). -/
def upsertTag (key : String) (s : String) : List ProcessedTag → List ProcessedTag
  | [] => [updateTag s ⟨key, 0, 0, 0, 0⟩]
  | e :: es => if e.tag = key then updateTag s e :: es else e :: upsertTag key s es

/-- The accumulation loop of `processTagsDistribution`. -/
def groupedTags (data : List RawData) : List ProcessedTag :=
  data.foldl
    (fun acc row =>
      (splitTags row.tags).foldl
        (fun acc tag => upsertTag tag (jsToLower row.sentimentText) acc) acc) []

/-- The sort comparator `(a, b) => b.total - a.total` (descending by total). -/
def tagGe (a b : ProcessedTag) : Prop := b.total ≤ a.total

instance : DecidableRel tagGe := fun a b => Nat.decLe b.total a.total

def processTagsDistribution (data : List RawData) : List ProcessedTag :=
  ((groupedTags data).insertionSort tagGe).take 10

/-! ### Filter engine (Dashboard component, lines 525-563) -/

inductive FilterMode
  | tags
  | topics
deriving Repr, DecidableEq

structure FilterConfig where
  timeframe : String
  customStart : String
  customEnd : String
  filterMode : FilterMode
  selectedTags : List String
  selectedTopics : List String
deriving Repr, DecidableEq

/-- The per-row date predicate (lines 533-538): a row with an Invalid Date
fails; otherwise it passes when its date is on or after `start` and on or
before `end` (`isAfter(d, start) || d == start` and symmetrically). A range
endpoint that does not parse makes every comparison false, so every row
fails. -/
def dateRangePred (startS endS : String) (d : RawData) : Bool :=
  match parseISO d.dateOfTweet with
  | none => false
  | some t =>
    match parseISO startS, parseISO endS with
    | some s, some e => dateIndex s ≤ dateIndex t && dateIndex t ≤ dateIndex e
    | _, _ => false

/-- The per-row tag predicate (lines 543-551): the row's tags are split on
commas, trimmed and uppercased; a selected tag matches by membership, and the
selection `FARES` additionally matches rows tagged `FAIRS`. -/
def tagFilterPred (selectedTags : List String) (d : RawData) : Bool :=
  let tags := (jsSplitOn ',' d.tags).map fun t => jsToUpper (jsTrim t)
  selectedTags.any fun sel =>
    let normalizedSelected := jsToUpper sel
    tags.contains normalizedSelected ||
      (normalizedSelected == "FARES" && tags.contains "FAIRS")

/-- The per-row topic predicate (lines 553-556): the sentinel label `Noise`
displays as `Others`; an empty (falsy) label fails. -/
def topicFilterPred (selectedTopics : List String) (d : RawData) : Bool :=
  let label := if d.mergedLabel = "Noise" then "Others" else d.mergedLabel
  !(label == "") && selectedTopics.contains label

/-- Lines 529-540: the date-range filter applies only when the timeframe is
`custom` and both bounds are non-empty. -/
def dateFiltered (data : List RawData) (cfg : FilterConfig) : List RawData :=
  if cfg.timeframe = "custom" then
    if cfg.customStart ≠ "" ∧ cfg.customEnd ≠ "" then
      data.filter (dateRangePred cfg.customStart cfg.customEnd)
    else data
  else data

/-- Lines 528-557: the composed filter pipeline producing `filteredData`; the
category predicate is the tag one when the mode is `tags` and at least one
tag is selected, else the topic one when the mode is `topics` and at least one
topic is selected, else no category filtering. -/
def applyFilters (data : List RawData) (cfg : FilterConfig) : List RawData :=
  let filtered := dateFiltered data cfg
  if cfg.filterMode = FilterMode.tags ∧ cfg.selectedTags ≠ [] then
    filtered.filter (tagFilterPred cfg.selectedTags)
  else if cfg.filterMode = FilterMode.topics ∧ cfg.selectedTopics ≠ [] then
    filtered.filter (topicFilterPred cfg.selectedTopics)
  else filtered

/-! ### Summary totals (Dashboard component, lines 565-573) -/

structure Totals where
  engagements : Int
  replies : Int
  positive : Nat
  negative : Nat
  neutral : Nat
deriving Repr, DecidableEq

/-- The stat-card reduce: unlike the two aggregators, its sentiment match
falls through to `neutral` for every label that is neither `positive` nor
`negative`. -/
def dashboardTotals (data : List RawData) : Totals :=
  data.foldl
    (fun acc curr =>
      let acc :=
        { acc with
            engagements := acc.engagements + jsNumberOrZero curr.totalEngagements
            replies := acc.replies + jsNumberOrZero curr.numberOfReplies }
      let s := jsToLower curr.sentimentText
      if s = "positive" then { acc with positive := acc.positive + 1 }
      else if s = "negative" then { acc with negative := acc.negative + 1 }
      else { acc with neutral := acc.neutral + 1 })
    ⟨0, 0, 0, 0, 0⟩

/-! ### Granularity-aware aggregation (modelled from the spec) -/

inductive Granularity
  | daily
  | monthly
deriving Repr, DecidableEq

/-- Modelled from the spec: the two-argument
`processSentimentOverTime(rows, aggregation)` invoked by the Dashboard
(line 560) is not among the provided source files, which contain only the
one-argument version; per spec section 4.1, under `daily` the bucket key is
the row's exact date value, and under `monthly` it is normalized to the first
calendar day of the row's month (year and month preserved, day forced to 1,
time-of-day forced to zero). -/
def bucketDate (g : Granularity) (d : SimpleDate) : SimpleDate :=
  match g with
  | .daily => d
  | .monthly => { d with day := 1 }

/-- Modelled from the spec: the bucket key of a row at a given granularity;
rows with unparseable or empty date fields are silently skipped (`none`). -/
def rowBucketKey (g : Granularity) (row : RawData) : Option SimpleDate :=
  (jsParseDate row.dateOfTweet).map (bucketDate g)

structure SentimentBucket where
  bucketKey : SimpleDate
  positive : Nat
  negative : Nat
  neutral : Nat
  totalEngagements : Int
  totalReplies : Int
deriving Repr, DecidableEq

def emptyBucket (k : SimpleDate) : SentimentBucket := ⟨k, 0, 0, 0, 0, 0⟩

/-- Modelled from the spec: per-row bucket update, with the same sentiment
counter rule and numeric coercion as the one-argument aggregator. -/
def updateBucket (row : RawData) (e : SentimentBucket) : SentimentBucket :=
  let s := jsToLower row.sentimentText
  let e :=
    if s = "positive" then { e with positive := e.positive + 1 }
    else if s = "negative" then { e with negative := e.negative + 1 }
    else if s = "neutral" then { e with neutral := e.neutral + 1 }
    else e
  { e with
      totalEngagements := e.totalEngagements + jsNumberOrZero row.totalEngagements
      totalReplies := e.totalReplies + jsNumberOrZero row.numberOfReplies }

def upsertBucket (key : SimpleDate) (row : RawData) :
    List SentimentBucket → List SentimentBucket
  | [] => [updateBucket row (emptyBucket key)]
  | e :: es =>
    if e.bucketKey = key then updateBucket row e :: es else e :: upsertBucket key row es

def bucketLe (a b : SentimentBucket) : Prop := dateIndex a.bucketKey ≤ dateIndex b.bucketKey

instance : DecidableRel bucketLe := fun a b =>
  Nat.decLe (dateIndex a.bucketKey) (dateIndex b.bucketKey)

/-- Modelled from the spec: the granularity-aware sentiment aggregator
(spec section 4.1): group the rows with a parseable date by their bucket key
at the given granularity, and sort the buckets chronologically. -/
def aggregateSentimentOverTime (data : List RawData) (g : Granularity) :
    List SentimentBucket :=
  (data.foldl
    (fun acc row =>
      match rowBucketKey g row with
      | none => acc
      | some k => upsertBucket k row acc) []).insertionSort bucketLe

/-! ### Derived notions used in the statements -/

/-- Month and day of a parsed date are in calendar range. -/
def validRange (t : SimpleDate) : Prop :=
  1 ≤ t.month ∧ t.month ≤ 12 ∧ 1 ≤ t.day ∧ t.day ≤ 31

/-- The three sentiment counters of one bucket, summed. -/
def countsOf (e : ProcessedSentiment) : Nat :=
  e.positive + e.negative + e.neutral

def sumCounts (l : List ProcessedSentiment) : Nat :=
  (l.map countsOf).sum

/-- A row's sentiment label matches one of the three canonical labels
case-insensitively. -/
def recognizedB (r : RawData) : Bool :=
  jsToLower r.sentimentText == "positive" ||
    jsToLower r.sentimentText == "negative" ||
    jsToLower r.sentimentText == "neutral"

/-- Rows counted by the (amended) conservation law: non-empty date and a
recognized sentiment label. -/
def countedRowB (r : RawData) : Bool :=
  !(r.dateOfTweet == "") && recognizedB r

/-- The row count asserted by the claim, following the spec's words: rows with
a non-empty AND parseable date and a recognized sentiment label. The code's
grouping never checks parseability, only non-emptiness. -/
def specCountedRowB (r : RawData) : Bool :=
  !(r.dateOfTweet == "") && (jsParseDate r.dateOfTweet).isSome && recognizedB r

/-- Normalized tag identity, following the spec's words (section 3): trimmed,
uppercased for comparison, with the misspelling alias `FAIRS` collapsed to
`FARES`. The distribution aggregator in the code keys buckets by the raw
trimmed tag instead. -/
def normalizeTagSpec (t : String) : String :=
  let u := jsToUpper (jsTrim t)
  if u = "FAIRS" then "FARES" else u

/-- Strict ordering of tag summaries asserted for the distribution output:
greater `total` first, ties by earlier position (`pos`). -/
def tagStrict (pos : ProcessedTag → Nat) (a b : ProcessedTag) : Prop :=
  b.total < a.total ∨ (a.total = b.total ∧ pos a < pos b)

/-- One step of the `processSentimentOverTime` accumulation loop. -/
def sentStep (acc : List ProcessedSentiment) (row : RawData) : List ProcessedSentiment :=
  if row.dateOfTweet = "" then acc else upsertSentiment row.dateOfTweet row acc

/-- The inner loop of `processTagsDistribution`: fold one row's tag list into
the accumulator with the row's lowercased sentiment. -/
def innerTagFold (s : String) (tl : List String) (acc : List ProcessedTag) :
    List ProcessedTag :=
  tl.foldl (fun acc tag => upsertTag tag s acc) acc

/-- One step of the `processTagsDistribution` accumulation loop. -/
def tagStep (acc : List ProcessedTag) (row : RawData) : List ProcessedTag :=
  innerTagFold (jsToLower row.sentimentText) (splitTags row.tags) acc

/-- One step of the modelled granularity-aware accumulation loop. -/
def bucketStep (g : Granularity) (acc : List SentimentBucket) (row : RawData) :
    List SentimentBucket :=
  match rowBucketKey g row with
  | none => acc
  | some k => upsertBucket k row acc

/-- One step of the stat-card reduce. -/
def totalsStep (acc : Totals) (curr : RawData) : Totals :=
  let acc :=
    { acc with
        engagements := acc.engagements + jsNumberOrZero curr.totalEngagements
        replies := acc.replies + jsNumberOrZero curr.numberOfReplies }
  let s := jsToLower curr.sentimentText
  if s = "positive" then { acc with positive := acc.positive + 1 }
  else if s = "negative" then { acc with negative := acc.negative + 1 }
  else { acc with neutral := acc.neutral + 1 }

/-! ## Lemmas about dates -/

theorem mkValidDate_some {y m d : Nat} {t : SimpleDate}
    (h : mkValidDate y m d = some t) : validRange t ∧ t = ⟨y, m, d⟩ := by
  unfold mkValidDate at h
  split at h
  · cases h
    exact ⟨by simpa [validRange] using by assumption, rfl⟩
  · cases h

theorem parseISO_validRange {s : String} {t : SimpleDate}
    (h : parseISO s = some t) : validRange t := by
  unfold parseISO at h
  split at h
  · split at h
    · split at h
      · exact (mkValidDate_some h).1
      · cases h
    · cases h
  · cases h

theorem jsParseDate_validRange {s : String} {t : SimpleDate}
    (h : jsParseDate s = some t) : validRange t := by
  unfold jsParseDate at h
  split at h
  · split at h
    · split at h
      · exact (mkValidDate_some h).1
      · cases h
    · cases h
  · cases h

theorem dateIndex_inj {t u : SimpleDate} (ht : validRange t) (hu : validRange u)
    (h : dateIndex t = dateIndex u) : t = u := by
  obtain ⟨y1, m1, d1⟩ := t
  obtain ⟨y2, m2, d2⟩ := u
  simp only [validRange, dateIndex] at ht hu h
  have : y1 = y2 ∧ m1 = m2 ∧ d1 = d2 := by omega
  simp [this.1, this.2.1, this.2.2]

/-! ## Counting lemmas for the sentiment aggregator -/

theorem countsOf_updateSentiment (row : RawData) (e : ProcessedSentiment) :
    countsOf (updateSentiment row e) = countsOf e + (if recognizedB row then 1 else 0) := by
  unfold updateSentiment countsOf recognizedB
  by_cases h1 : jsToLower row.sentimentText = "positive" <;>
    by_cases h2 : jsToLower row.sentimentText = "negative" <;>
      by_cases h3 : jsToLower row.sentimentText = "neutral" <;>
        simp [h1, h2, h3] <;> omega

theorem date_updateSentiment (row : RawData) (e : ProcessedSentiment) :
    (updateSentiment row e).date = e.date := by
  unfold updateSentiment
  dsimp only
  split_ifs <;> rfl

theorem sumCounts_upsertSentiment (key : String) (row : RawData)
    (acc : List ProcessedSentiment) :
    sumCounts (upsertSentiment key row acc) =
      sumCounts acc + (if recognizedB row then 1 else 0) := by
  induction acc with
  | nil =>
    simp only [upsertSentiment, sumCounts, List.map_cons, List.map_nil, List.sum_cons,
      List.sum_nil]
    rw [countsOf_updateSentiment]
    simp [countsOf, emptySentiment]
  | cons e es ih =>
    by_cases h : e.date = key
    · simp only [upsertSentiment, if_pos h, sumCounts, List.map_cons, List.sum_cons]
      rw [countsOf_updateSentiment]
      omega
    · simp only [upsertSentiment, if_neg h, sumCounts, List.map_cons, List.sum_cons]
      simp only [sumCounts] at ih
      omega

theorem sumCounts_groupedSentiment_aux (data : List RawData) :
    ∀ acc : List ProcessedSentiment,
      sumCounts (data.foldl
        (fun acc row =>
          if row.dateOfTweet = "" then acc else upsertSentiment row.dateOfTweet row acc) acc) =
        sumCounts acc + (data.filter countedRowB).length := by
  induction data with
  | nil => simp
  | cons row rest ih =>
    intro acc
    simp only [List.foldl_cons, List.filter_cons]
    by_cases hd : row.dateOfTweet = ""
    · simp [hd, countedRowB, ih]
    · by_cases hr : recognizedB row
      · simp [hd, countedRowB, hr, ih, sumCounts_upsertSentiment]
        omega
      · simp [hd, countedRowB, hr, ih, sumCounts_upsertSentiment]

theorem sumCounts_perm (l1 l2 : List ProcessedSentiment) (h : l1.Perm l2) :
    sumCounts l1 = sumCounts l2 :=
  (h.map countsOf).sum_eq

/-! ## Structure of the sentiment grouping -/

theorem dates_upsertSentiment (key : String) (row : RawData)
    (acc : List ProcessedSentiment) :
    (upsertSentiment key row acc).map (fun e => e.date) =
      if key ∈ acc.map (fun e => e.date) then acc.map (fun e => e.date)
      else acc.map (fun e => e.date) ++ [key] := by
  induction acc with
  | nil => simp [upsertSentiment, date_updateSentiment, emptySentiment]
  | cons e es ih =>
    by_cases h : e.date = key
    · simp [upsertSentiment, if_pos h, date_updateSentiment, h]
    · simp only [upsertSentiment, if_neg h, List.map_cons, ih]
      have hne : key ≠ e.date := fun hk => h hk.symm
      by_cases hm : key ∈ es.map (fun e => e.date) <;>
        simp [List.mem_cons, hne, hm]

theorem groupedSentiment_eq_foldl (data : List RawData) :
    groupedSentiment data = data.foldl sentStep [] := rfl

theorem dates_sentStep_nodup (acc : List ProcessedSentiment) (row : RawData)
    (h : (acc.map (fun e => e.date)).Nodup) :
    ((sentStep acc row).map (fun e => e.date)).Nodup := by
  unfold sentStep
  split_ifs with hd
  · exact h
  · rw [dates_upsertSentiment]
    split_ifs with hm
    · exact h
    · rw [List.nodup_append]
      refine ⟨h, List.nodup_singleton _, fun a ha hb => ?_⟩
      rw [List.mem_singleton] at hb
      exact hm (hb ▸ ha)

theorem mem_dates_sentStep {k : String} (acc : List ProcessedSentiment) (row : RawData)
    (h : k ∈ (sentStep acc row).map (fun e => e.date)) :
    k ∈ acc.map (fun e => e.date) ∨ (k = row.dateOfTweet ∧ row.dateOfTweet ≠ "") := by
  unfold sentStep at h
  split_ifs at h with hd
  · exact Or.inl h
  · rw [dates_upsertSentiment] at h
    split_ifs at h with hm
    · exact Or.inl h
    · rcases List.mem_append.1 h with h' | h'
      · exact Or.inl h'
      · exact Or.inr ⟨by simpa using h', hd⟩

theorem mem_dates_sentStep_of_mem {k : String} (acc : List ProcessedSentiment)
    (row : RawData) (h : k ∈ acc.map (fun e => e.date)) :
    k ∈ (sentStep acc row).map (fun e => e.date) := by
  unfold sentStep
  split_ifs with hd
  · exact h
  · rw [dates_upsertSentiment]
    split_ifs with hm
    · exact h
    · exact List.mem_append.2 (Or.inl h)

theorem dates_fold_nodup (data : List RawData) :
    ∀ acc : List ProcessedSentiment, (acc.map (fun e => e.date)).Nodup →
      ((data.foldl sentStep acc).map (fun e => e.date)).Nodup := by
  induction data with
  | nil => intro acc h; exact h
  | cons row rest ih =>
    intro acc h
    exact ih (sentStep acc row) (dates_sentStep_nodup acc row h)

theorem mem_dates_fold (data : List RawData) :
    ∀ acc : List ProcessedSentiment, ∀ k : String,
      k ∈ ((data.foldl sentStep acc).map (fun e => e.date)) →
        k ∈ acc.map (fun e => e.date) ∨
          ∃ r ∈ data, k = r.dateOfTweet ∧ r.dateOfTweet ≠ "" := by
  induction data with
  | nil => intro acc k h; exact Or.inl h
  | cons row rest ih =>
    intro acc k h
    rcases ih (sentStep acc row) k h with h' | ⟨r, hr, hk⟩
    · rcases mem_dates_sentStep acc row h' with h'' | h''
      · exact Or.inl h''
      · exact Or.inr ⟨row, List.mem_cons_self _ _, h''⟩
    · exact Or.inr ⟨r, List.mem_cons_of_mem _ hr, hk⟩

theorem mem_dates_foldl_of_mem (data : List RawData) :
    ∀ acc : List ProcessedSentiment, ∀ k : String, k ∈ acc.map (fun e => e.date) →
      k ∈ ((data.foldl sentStep acc).map (fun e => e.date)) := by
  induction data with
  | nil => intro acc k h; exact h
  | cons row rest ih =>
    intro acc k h
    exact ih (sentStep acc row) k (mem_dates_sentStep_of_mem acc row h)

theorem dates_fold_of_mem_data (data : List RawData) :
    ∀ acc : List ProcessedSentiment, ∀ r ∈ data, r.dateOfTweet ≠ "" →
      r.dateOfTweet ∈ ((data.foldl sentStep acc).map (fun e => e.date)) := by
  induction data with
  | nil => intro _ r hr; exact absurd hr (List.not_mem_nil r)
  | cons row rest ih =>
    intro acc r hr hne
    rcases List.mem_cons.1 hr with rfl | hr'
    · have hk : r.dateOfTweet ∈ (sentStep acc r).map (fun e => e.date) := by
        unfold sentStep
        rw [if_neg hne, dates_upsertSentiment]
        split_ifs with hm
        · exact hm
        · exact List.mem_append.2 (Or.inr (by simp))
      exact mem_dates_foldl_of_mem rest (sentStep acc r) r.dateOfTweet hk
    · exact ih (sentStep acc row) r hr' hne

/-! ## Local sortedness of insertion sort -/

theorem pairwise_orderedInsert_of {α : Type} (r : α → α → Prop) [DecidableRel r]
    (x : α) (s : List α) (hs : s.Pairwise r)
    (htot : ∀ y ∈ s, r x y ∨ r y x)
    (htrans : ∀ a ∈ s, ∀ b ∈ s, r x a → r a b → r x b) :
    (s.orderedInsert r x).Pairwise r := by
  induction s with
  | nil => simp
  | cons b t ih =>
    by_cases h : r x b
    · rw [List.orderedInsert, if_pos h]
      refine List.Pairwise.cons ?_ hs
      intro y hy
      rcases List.mem_cons.1 hy with rfl | hy'
      · exact h
      · exact htrans b (by simp) y (by simp [hy']) h ((List.pairwise_cons.1 hs).1 y hy')
    · rw [List.orderedInsert, if_neg h]
      have hbx : r b x := (htot b (by simp)).resolve_left h
      refine List.Pairwise.cons ?_ ?_
      · intro y hy
        rcases (List.mem_orderedInsert r).1 hy with rfl | hy'
        · exact hbx
        · exact (List.pairwise_cons.1 hs).1 y hy'
      · exact ih (List.pairwise_cons.1 hs).2
          (fun y hy => htot y (List.mem_cons_of_mem _ hy))
          (fun a ha b2 hb2 => htrans a (List.mem_cons_of_mem _ ha) b2
            (List.mem_cons_of_mem _ hb2))

theorem pairwise_insertionSort_of {α : Type} (r : α → α → Prop) [DecidableRel r]
    (l : List α)
    (htot : ∀ a ∈ l, ∀ b ∈ l, r a b ∨ r b a)
    (htrans : ∀ a ∈ l, ∀ b ∈ l, ∀ c ∈ l, r a b → r b c → r a c) :
    (l.insertionSort r).Pairwise r := by
  induction l with
  | nil => simp
  | cons x t ih =>
    rw [List.insertionSort]
    have hmem : ∀ y ∈ t.insertionSort r, y ∈ t := fun y hy =>
      (List.mem_insertionSort r).1 hy
    refine pairwise_orderedInsert_of r x (t.insertionSort r) ?_ ?_ ?_
    · exact ih (fun a ha b hb => htot a (List.mem_cons_of_mem _ ha) b
        (List.mem_cons_of_mem _ hb))
        (fun a ha b hb c hc => htrans a (List.mem_cons_of_mem _ ha) b
          (List.mem_cons_of_mem _ hb) c (List.mem_cons_of_mem _ hc))
    · intro y hy
      exact htot x (by simp) y (List.mem_cons_of_mem _ (hmem y hy))
    · intro a ha b hb
      exact htrans x (by simp) a (List.mem_cons_of_mem _ (hmem a ha)) b
        (List.mem_cons_of_mem _ (hmem b hb))

/-! ## Structure of the tag grouping -/

theorem tag_updateTag (s : String) (e : ProcessedTag) : (updateTag s e).tag = e.tag := by
  unfold updateTag
  dsimp only
  split_ifs <;> rfl

theorem tags_upsertTag (key s : String) (acc : List ProcessedTag) :
    (upsertTag key s acc).map (fun e => e.tag) =
      if key ∈ acc.map (fun e => e.tag) then acc.map (fun e => e.tag)
      else acc.map (fun e => e.tag) ++ [key] := by
  induction acc with
  | nil => simp [upsertTag, tag_updateTag]
  | cons e es ih =>
    by_cases h : e.tag = key
    · simp [upsertTag, if_pos h, tag_updateTag, h]
    · simp only [upsertTag, if_neg h, List.map_cons, ih]
      have hne : key ≠ e.tag := fun hk => h hk.symm
      by_cases hm : key ∈ es.map (fun e => e.tag) <;>
        simp [List.mem_cons, hne, hm]

theorem mem_tags_upsertTag {t : String} (key s : String) (acc : List ProcessedTag) :
    t ∈ (upsertTag key s acc).map (fun e => e.tag) ↔
      t ∈ acc.map (fun e => e.tag) ∨ t = key := by
  rw [tags_upsertTag]
  split_ifs with h
  · constructor
    · exact Or.inl
    · rintro (h' | rfl)
      · exact h'
      · exact h
  · simp

theorem nodup_tags_upsertTag (key s : String) (acc : List ProcessedTag)
    (h : (acc.map (fun e => e.tag)).Nodup) :
    ((upsertTag key s acc).map (fun e => e.tag)).Nodup := by
  rw [tags_upsertTag]
  split_ifs with hm
  · exact h
  · rw [List.nodup_append]
    refine ⟨h, List.nodup_singleton _, fun a ha hb => ?_⟩
    rw [List.mem_singleton] at hb
    exact hm (hb ▸ ha)

theorem mem_tags_innerTagFold (s : String) (tl : List String) :
    ∀ acc : List ProcessedTag, ∀ t : String,
      t ∈ (innerTagFold s tl acc).map (fun e => e.tag) ↔
        t ∈ acc.map (fun e => e.tag) ∨ t ∈ tl := by
  induction tl with
  | nil => intro acc t; simp [innerTagFold]
  | cons tag rest ih =>
    intro acc t
    show t ∈ (innerTagFold s rest (upsertTag tag s acc)).map (fun e => e.tag) ↔ _
    rw [ih, mem_tags_upsertTag, List.mem_cons]
    tauto

theorem nodup_tags_innerTagFold (s : String) (tl : List String) :
    ∀ acc : List ProcessedTag, (acc.map (fun e => e.tag)).Nodup →
      ((innerTagFold s tl acc).map (fun e => e.tag)).Nodup := by
  induction tl with
  | nil => intro acc h; exact h
  | cons tag rest ih =>
    intro acc h
    exact ih (upsertTag tag s acc) (nodup_tags_upsertTag tag s acc h)

theorem groupedTags_eq_foldl (data : List RawData) :
    groupedTags data = data.foldl tagStep [] := rfl

theorem mem_tags_fold (data : List RawData) :
    ∀ acc : List ProcessedTag, ∀ t : String,
      t ∈ ((data.foldl tagStep acc).map (fun e => e.tag)) ↔
        t ∈ acc.map (fun e => e.tag) ∨ ∃ r ∈ data, t ∈ splitTags r.tags := by
  induction data with
  | nil => intro acc t; simp
  | cons row rest ih =>
    intro acc t
    show t ∈ ((rest.foldl tagStep (tagStep acc row)).map (fun e => e.tag)) ↔ _
    rw [ih]
    unfold tagStep
    rw [mem_tags_innerTagFold]
    simp only [List.mem_cons]
    constructor
    · rintro ((h | h) | ⟨r, hr, ht⟩)
      · exact Or.inl h
      · exact Or.inr ⟨row, Or.inl rfl, h⟩
      · exact Or.inr ⟨r, Or.inr hr, ht⟩
    · rintro (h | ⟨r, rfl | hr, ht⟩)
      · exact Or.inl (Or.inl h)
      · exact Or.inl (Or.inr ht)
      · exact Or.inr ⟨r, hr, ht⟩

theorem nodup_tags_fold (data : List RawData) :
    ∀ acc : List ProcessedTag, (acc.map (fun e => e.tag)).Nodup →
      ((data.foldl tagStep acc).map (fun e => e.tag)).Nodup := by
  induction data with
  | nil => intro acc h; exact h
  | cons row rest ih =>
    intro acc h
    exact ih (tagStep acc row) (nodup_tags_innerTagFold _ _ acc h)

theorem mem_splitTags_ne {s t : String} (h : t ∈ splitTags s) :
    t ≠ "" ∧ t ≠ "OTHERS" := by
  unfold splitTags at h
  have h2 := (List.mem_filter.1 h).2
  constructor <;> intro he <;> subst he <;> simp at h2

/-! ## Stability of the distribution sort -/

theorem tagStrict_total_le {pos : ProcessedTag → Nat} {a b : ProcessedTag}
    (h : tagStrict pos a b) : b.total ≤ a.total := by
  rcases h with h | ⟨h, _⟩
  · exact Nat.le_of_lt h
  · exact Nat.le_of_eq h.symm

theorem orderedInsert_stable (pos : ProcessedTag → Nat) (x : ProcessedTag)
    (s : List ProcessedTag) (hs : s.Pairwise (tagStrict pos))
    (hx : ∀ y ∈ s, pos x < pos y) :
    (s.orderedInsert tagGe x).Pairwise (tagStrict pos) := by
  induction s with
  | nil => simp
  | cons b t ih =>
    by_cases h : tagGe x b
    · rw [List.orderedInsert, if_pos h]
      have hbx : b.total ≤ x.total := h
      refine List.Pairwise.cons ?_ hs
      intro y hy
      have hxy : pos x < pos y := hx y hy
      have hyb : y.total ≤ b.total := by
        rcases List.mem_cons.1 hy with rfl | hy'
        · exact Nat.le_refl _
        · exact tagStrict_total_le ((List.pairwise_cons.1 hs).1 y hy')
      rcases Nat.lt_or_ge y.total x.total with hlt | hge
      · exact Or.inl hlt
      · exact Or.inr ⟨Nat.le_antisymm hge (Nat.le_trans hyb hbx), hxy⟩
    · rw [List.orderedInsert, if_neg h]
      have hbx : ¬b.total ≤ x.total := h
      refine List.Pairwise.cons ?_
        (ih (List.pairwise_cons.1 hs).2 fun y hy => hx y (List.mem_cons_of_mem _ hy))
      intro y hy
      rcases (List.mem_orderedInsert tagGe).1 hy with rfl | hy'
      · exact Or.inl (Nat.lt_of_not_le hbx)
      · exact (List.pairwise_cons.1 hs).1 y hy'

theorem insertionSort_stable (pos : ProcessedTag → Nat) (l : List ProcessedTag)
    (hl : l.Pairwise fun a b => pos a < pos b) :
    (l.insertionSort tagGe).Pairwise (tagStrict pos) := by
  induction l with
  | nil => simp
  | cons x t ih =>
    rw [List.insertionSort]
    refine orderedInsert_stable pos x _ (ih (List.pairwise_cons.1 hl).2) ?_
    intro y hy
    exact (List.pairwise_cons.1 hl).1 y ((List.mem_insertionSort tagGe).1 hy)

theorem nodup_pairwise_indexOf {α : Type} [DecidableEq α] (l : List α) (h : l.Nodup) :
    l.Pairwise fun a b => l.indexOf a < l.indexOf b := by
  induction l with
  | nil => simp
  | cons x t ih =>
    rcases List.nodup_cons.1 h with ⟨hx, ht⟩
    refine List.Pairwise.cons ?_ ?_
    · intro b hb
      have hbx : x ≠ b := fun he => hx (he ▸ hb)
      rw [List.indexOf_cons_self, List.indexOf_cons_ne _ hbx]
      exact Nat.succ_pos _
    · refine List.Pairwise.imp_of_mem ?_ (ih ht)
      intro a b ha hb hab
      have hxa : x ≠ a := fun he => hx (he ▸ ha)
      have hxb : x ≠ b := fun he => hx (he ▸ hb)
      rw [List.indexOf_cons_ne _ hxa, List.indexOf_cons_ne _ hxb]
      exact Nat.succ_lt_succ hab

theorem sentLe_total (a b : ProcessedSentiment) : sentLe a b ∨ sentLe b a := by
  unfold sentLe sentLeB
  cases hx : jsParseDate a.date <;> cases hy : jsParseDate b.date <;> simp
  omega

theorem sentLe_trans_of {a b c : ProcessedSentiment}
    (hb : (jsParseDate b.date).isSome)
    (hab : sentLe a b) (hbc : sentLe b c) : sentLe a c := by
  unfold sentLe sentLeB at hab hbc ⊢
  cases hx : jsParseDate a.date <;> cases hy : jsParseDate b.date <;>
    cases hz : jsParseDate c.date <;> simp_all
  omega

/-! ## Keys of the modelled granularity-aware aggregator -/

theorem aggregateSentimentOverTime_eq_foldl (data : List RawData) (g : Granularity) :
    aggregateSentimentOverTime data g =
      (data.foldl (bucketStep g) []).insertionSort bucketLe := rfl

theorem bucketKey_updateBucket (row : RawData) (e : SentimentBucket) :
    (updateBucket row e).bucketKey = e.bucketKey := by
  unfold updateBucket
  dsimp only
  split_ifs <;> rfl

theorem mem_keys_upsertBucket {k : SimpleDate} (key : SimpleDate) (row : RawData)
    (acc : List SentimentBucket)
    (h : k ∈ (upsertBucket key row acc).map (fun e => e.bucketKey)) :
    k ∈ acc.map (fun e => e.bucketKey) ∨ k = key := by
  induction acc with
  | nil =>
    simp [upsertBucket, bucketKey_updateBucket, emptyBucket] at h
    exact Or.inr h
  | cons e es ih =>
    rw [upsertBucket] at h
    split_ifs at h with he
    · simp only [List.map_cons, List.mem_cons, bucketKey_updateBucket] at h
      rcases h with rfl | h
      · exact Or.inl (by simp)
      · exact Or.inl (by simp [h])
    · simp only [List.map_cons, List.mem_cons] at h
      rcases h with rfl | h
      · exact Or.inl (by simp)
      · rcases ih h with h2 | h2
        · exact Or.inl (by simp [h2])
        · exact Or.inr h2

theorem rowBucketKey_monthly_day {row : RawData} {k : SimpleDate}
    (h : rowBucketKey .monthly row = some k) : k.day = 1 := by
  unfold rowBucketKey at h
  cases hp : jsParseDate row.dateOfTweet with
  | none => rw [hp] at h; cases h
  | some d =>
    rw [hp] at h
    cases h
    rfl

theorem monthly_fold_day_one (data : List RawData) :
    ∀ acc : List SentimentBucket,
      (∀ k ∈ acc.map (fun e => e.bucketKey), k.day = 1) →
      ∀ k ∈ ((data.foldl (bucketStep .monthly) acc).map (fun e => e.bucketKey)),
        k.day = 1 := by
  induction data with
  | nil => intro acc h; exact h
  | cons row rest ih =>
    intro acc hacc
    refine ih (bucketStep .monthly acc row) ?_
    intro k hk
    unfold bucketStep at hk
    cases hp : rowBucketKey Granularity.monthly row with
    | none => rw [hp] at hk; exact hacc k hk
    | some key =>
      rw [hp] at hk
      rcases mem_keys_upsertBucket key row acc hk with h2 | rfl
      · exact hacc k h2
      · exact rowBucketKey_monthly_day hp

/-! ## Filter algebra -/

theorem filter_self_idem {α : Type} (p : α → Bool) (l : List α) :
    (l.filter p).filter p = l.filter p :=
  List.filter_eq_self.2 fun _ ha => (List.mem_filter.1 ha).2

theorem filter_four {α : Type} (p q : α → Bool) (l : List α) :
    ((((l.filter q).filter p).filter q).filter p) = (l.filter q).filter p := by
  have h1 : ((l.filter q).filter p).filter q = (l.filter q).filter p :=
    List.filter_eq_self.2 fun _ ha => (List.mem_filter.1 ((List.mem_filter.1 ha).1)).2
  rw [h1, filter_self_idem]

/-! ## The stat-card reduce -/

theorem dashboardTotals_eq_foldl (data : List RawData) :
    dashboardTotals data = data.foldl totalsStep ⟨0, 0, 0, 0, 0⟩ := rfl

theorem totalsStep_sum (acc : Totals) (curr : RawData) :
    (totalsStep acc curr).positive + (totalsStep acc curr).negative +
        (totalsStep acc curr).neutral =
      acc.positive + acc.negative + acc.neutral + 1 := by
  unfold totalsStep
  dsimp only
  split_ifs <;> simp <;> omega

theorem totals_fold_sum (data : List RawData) : ∀ acc : Totals,
    (data.foldl totalsStep acc).positive + (data.foldl totalsStep acc).negative +
        (data.foldl totalsStep acc).neutral =
      acc.positive + acc.negative + acc.neutral + data.length := by
  induction data with
  | nil => intro acc; simp
  | cons row rest ih =>
    intro acc
    simp only [List.foldl_cons, List.length_cons]
    rw [ih (totalsStep acc row), totalsStep_sum]
    omega

/-! ## Claims -/

/-- C1 (counterexample): the claim requires the conserved count to range over
rows with a non-empty AND parseable date; but a row whose date is non-empty
yet unparseable (`new Date('not-a-date')` is an Invalid Date) still gets a
bucket and still increments a sentiment counter, so the bucket counter sum is
1 while the claim's count is 0. -/
theorem processSentimentOverTime_unparseable_date_counted :
    sumCounts (processSentimentOverTime [⟨"not-a-date", "positive", "", "", "", ""⟩]) = 1 ∧
      ([(⟨"not-a-date", "positive", "", "", "", ""⟩ : RawData)].filter specCountedRowB).length
        = 0 ∧
      jsParseDate "not-a-date" = none := by
  decide

/-- C1 (amended): for every list of raw rows, the sum of
`positive + negative + neutral` over all buckets of `processSentimentOverTime`
equals the number of input rows with a non-empty date field (parseable or
not) and a sentiment label matching `positive`, `negative` or `neutral`
case-insensitively; rows with an unrecognized label increment no counter in
any bucket. -/
theorem processSentimentOverTime_sum_counts (data : List RawData) :
    sumCounts (processSentimentOverTime data) = (data.filter countedRowB).length := by
  unfold processSentimentOverTime
  rw [sumCounts_perm _ _ (List.perm_insertionSort sentLe (groupedSentiment data)),
    groupedSentiment]
  simpa [sumCounts] using sumCounts_groupedSentiment_aux data []

/-- C5: for inputs whose non-empty date strings all parse (the claim's reading
of keys that denote a chronological instant), the bucket sequence of
`processSentimentOverTime` has pairwise distinct bucket keys, and is sorted
ascending by the chronological instant of the key (`getTime` order, not
string order). -/
theorem processSentimentOverTime_nodup_chronological (data : List RawData)
    (hp : ∀ r ∈ data, r.dateOfTweet ≠ "" → (jsParseDate r.dateOfTweet).isSome) :
    ((processSentimentOverTime data).map (fun e => e.date)).Nodup ∧
      (processSentimentOverTime data).Pairwise (fun a b =>
        ∃ x y, jsParseDate a.date = some x ∧ jsParseDate b.date = some y ∧
          dateIndex x ≤ dateIndex y) := by
  have hparse : ∀ b ∈ groupedSentiment data, (jsParseDate b.date).isSome := by
    intro b hb
    have hmem : b.date ∈ (groupedSentiment data).map (fun e => e.date) :=
      List.mem_map.2 ⟨b, hb, rfl⟩
    rw [groupedSentiment_eq_foldl] at hmem
    rcases mem_dates_fold data [] b.date hmem with h | ⟨r, hr, hk, hne⟩
    · simp at h
    · exact hk ▸ hp r hr hne
  constructor
  · have hnd : ((groupedSentiment data).map (fun e => e.date)).Nodup := by
      rw [groupedSentiment_eq_foldl]
      exact dates_fold_nodup data [] (by simp)
    exact (((List.perm_insertionSort sentLe (groupedSentiment data)).map
      (fun e => e.date)).nodup_iff).2 hnd
  · have hpw : ((groupedSentiment data).insertionSort sentLe).Pairwise sentLe :=
      pairwise_insertionSort_of sentLe (groupedSentiment data)
        (fun a _ b _ => sentLe_total a b)
        (fun a _ b hb c _ hab hbc => sentLe_trans_of (hparse b hb) hab hbc)
    refine List.Pairwise.imp_of_mem ?_ hpw
    intro a b ha hb hab
    have ha2 := hparse a ((List.mem_insertionSort sentLe).1 ha)
    have hb2 := hparse b ((List.mem_insertionSort sentLe).1 hb)
    rcases Option.isSome_iff_exists.1 ha2 with ⟨x, hx⟩
    rcases Option.isSome_iff_exists.1 hb2 with ⟨y, hy⟩
    refine ⟨x, y, hx, hy, ?_⟩
    unfold sentLe sentLeB at hab
    rw [hx, hy] at hab
    simpa using hab

/-- C5 (witness): concrete run on two rows whose dates order chronologically
but not lexicographically (the string "2024-1-10" sorts before "2024-1-2"). -/
theorem processSentimentOverTime_nodup_chronological_witness :
    (((processSentimentOverTime
        [⟨"2024-1-10", "positive", "3", "", "", ""⟩,
         ⟨"2024-1-2", "neutral", "", "1", "", ""⟩]).map (fun e => e.date)).Nodup ∧
      (processSentimentOverTime
        [⟨"2024-1-10", "positive", "3", "", "", ""⟩,
         ⟨"2024-1-2", "neutral", "", "1", "", ""⟩]).Pairwise (fun a b =>
          ∃ x y, jsParseDate a.date = some x ∧ jsParseDate b.date = some y ∧
            dateIndex x ≤ dateIndex y)) ∧
      (processSentimentOverTime
        [⟨"2024-1-10", "positive", "3", "", "", ""⟩,
         ⟨"2024-1-2", "neutral", "", "1", "", ""⟩]).map (fun e => e.date) =
        ["2024-1-2", "2024-1-10"] := by
  refine ⟨processSentimentOverTime_nodup_chronological _ (by decide), by decide⟩

/-- C3 (counterexample): the claim says the alias `FAIRS` collapses to `FARES`
wherever tag identity is compared; but the distribution aggregator keys its
buckets by the raw trimmed tag, so rows tagged `FAIRS` and `FARES` produce two
distinct buckets even though their spec-normalized identities coincide. -/
theorem processTagsDistribution_fairs_not_collapsed :
    (processTagsDistribution
        [⟨"", "", "", "", "FAIRS", ""⟩, ⟨"", "", "", "", "FARES", ""⟩]).map
      (fun e => e.tag) = ["FAIRS", "FARES"] ∧
      normalizeTagSpec "FAIRS" = normalizeTagSpec "FARES" := by
  decide

/-- C3 (amended): a row tagged `"Fares, OTHERS, Safety"` contributes to
exactly the two buckets keyed by the raw trimmed tags `Fares` and `Safety`
and to no `OTHERS` bucket — the sentinel `OTHERS` is excluded from tag
aggregation for every input; the misspelling alias `FAIRS` → `FARES` applies
where tags are compared for filtering (a `FARES` selection also matches rows
tagged `FAIRS`), but not inside the distribution aggregator. -/
theorem processTagsDistribution_fares_others_safety :
    processTagsDistribution [⟨"", "Positive", "", "", "Fares, OTHERS, Safety", ""⟩] =
        [⟨"Fares", 1, 0, 0, 1⟩, ⟨"Safety", 1, 0, 0, 1⟩] ∧
      tagFilterPred ["FARES"] ⟨"", "", "", "", "Lagos, FAIRS", ""⟩ = true ∧
      ∀ data : List RawData, ∀ b ∈ processTagsDistribution data, b.tag ≠ "OTHERS" := by
  refine ⟨by decide, by decide, ?_⟩
  intro data b hb
  have hb2 : b ∈ (groupedTags data).insertionSort tagGe :=
    List.Sublist.mem hb (List.take_sublist 10 _)
  have hb3 : b ∈ groupedTags data := (List.mem_insertionSort tagGe).1 hb2
  have hmem : b.tag ∈ (groupedTags data).map (fun e => e.tag) :=
    List.mem_map.2 ⟨b, hb3, rfl⟩
  rw [groupedTags_eq_foldl] at hmem
  rcases (mem_tags_fold data [] b.tag).1 hmem with h | ⟨r, _, ht⟩
  · simp at h
  · exact (mem_splitTags_ne ht).2

/-- C3 (witness): the OTHERS-exclusion clause of the theorem applied at a
concrete input and a concrete output entry, plus the resulting bucket keys. -/
theorem processTagsDistribution_fares_others_safety_witness :
    (⟨"Fares", 0, 0, 0, 1⟩ : ProcessedTag).tag ≠ "OTHERS" ∧
      (processTagsDistribution [⟨"", "", "", "", "OTHERS, Fares", ""⟩]).map
        (fun e => e.tag) = ["Fares"] :=
  ⟨processTagsDistribution_fares_others_safety.2.2
      [⟨"", "", "", "", "OTHERS, Fares", ""⟩] ⟨"Fares", 0, 0, 0, 1⟩ (by decide),
    by decide⟩

/-- C4 (counterexample): the claim measures the output length against the
number of distinct NORMALIZED tags (spec normalization uppercases and
collapses `FAIRS` to `FARES`); rows tagged `FAIRS` and `FARES` have one
normalized tag but produce an output of length two. -/
theorem processTagsDistribution_length_not_alias_normalized :
    (processTagsDistribution
        [⟨"", "", "", "", "FAIRS", ""⟩, ⟨"", "", "", "", "FARES", ""⟩]).length = 2 ∧
      ([(⟨"", "", "", "", "FAIRS", ""⟩ : RawData), ⟨"", "", "", "", "FARES", ""⟩].flatMap
          fun r => (splitTags r.tags).map normalizeTagSpec).toFinset.card = 1 := by
  decide

/-- C4 (amended): the distribution's length is `min 10 k` where `k` is the
number of distinct raw trimmed tags (excluding empty and the `OTHERS`
sentinel, case-sensitively and without alias collapse); the output is sorted
descending by `total`, and entries with equal `total` keep the accumulator's
insertion order, which is first-encounter order in the input. -/
theorem processTagsDistribution_top10_sorted_stable (data : List RawData) :
    (processTagsDistribution data).length =
        min 10 ((data.flatMap fun r => splitTags r.tags).toFinset.card) ∧
      (processTagsDistribution data).Pairwise
        (tagStrict fun e => (groupedTags data).indexOf e) := by
  have hnd : ((groupedTags data).map (fun e => e.tag)).Nodup := by
    rw [groupedTags_eq_foldl]
    exact nodup_tags_fold data [] (by simp)
  constructor
  · have hset : ((groupedTags data).map (fun e => e.tag)).toFinset =
        (data.flatMap fun r => splitTags r.tags).toFinset := by
      ext a
      simp only [List.mem_toFinset, List.mem_flatMap]
      rw [groupedTags_eq_foldl]
      rw [mem_tags_fold data [] a]
      simp
    have hcard : ((data.flatMap fun r => splitTags r.tags).toFinset).card =
        (groupedTags data).length := by
      rw [← hset, List.toFinset_card_of_nodup hnd, List.length_map]
    rw [processTagsDistribution, List.length_take,
      (List.perm_insertionSort tagGe (groupedTags data)).length_eq, hcard]
  · have hndl : (groupedTags data).Nodup := List.Nodup.of_map _ hnd
    have hpw := insertionSort_stable (fun e => (groupedTags data).indexOf e)
      (groupedTags data) (nodup_pairwise_indexOf _ hndl)
    exact List.Pairwise.sublist (List.take_sublist 10 _) hpw

/-- C9 (counterexample): the claim says a malformed date causes the row to be
dropped from date-keyed grouping; the code only drops rows whose date string
is empty, so a non-empty unparseable date still produces a bucket. -/
theorem processSentimentOverTime_keeps_malformed_date_row :
    (processSentimentOverTime [⟨"not-a-date", "neutral", "", "", "", ""⟩]).length = 1 ∧
      jsParseDate "not-a-date" = none := by
  decide

/-- C9 (amended): both aggregators are total functions that degrade
gracefully: the empty input yields the empty sequence; only rows with an
empty date string are dropped from date-keyed grouping (every row with a
non-empty date, parseable or not, contributes a bucket); and for a row with
an unrecognized sentiment label no sentiment counter increments while the
engagement and reply values are still coerced (non-numeric to zero) and
summed. -/
theorem aggregators_graceful_degradation :
    (processSentimentOverTime [] = [] ∧ processTagsDistribution [] = []) ∧
      (∀ data : List RawData, ∀ b ∈ processSentimentOverTime data, b.date ≠ "") ∧
      (∀ data : List RawData, ∀ r ∈ data, r.dateOfTweet ≠ "" →
        ∃ b ∈ processSentimentOverTime data, b.date = r.dateOfTweet) ∧
      (∀ row : RawData, row.dateOfTweet ≠ "" → recognizedB row = false →
        processSentimentOverTime [row] =
          [⟨row.dateOfTweet, 0, 0, 0, jsNumberOrZero row.totalEngagements,
            jsNumberOrZero row.numberOfReplies⟩]) := by
  refine ⟨⟨rfl, rfl⟩, ?_, ?_, ?_⟩
  · intro data b hb
    have hmem : b.date ∈ (groupedSentiment data).map (fun e => e.date) :=
      List.mem_map.2 ⟨b, (List.mem_insertionSort sentLe).1 hb, rfl⟩
    rw [groupedSentiment_eq_foldl] at hmem
    rcases mem_dates_fold data [] b.date hmem with h | ⟨r, _, hk, hne⟩
    · simp at h
    · exact hk ▸ hne
  · intro data r hr hne
    have hmem : r.dateOfTweet ∈ (groupedSentiment data).map (fun e => e.date) := by
      rw [groupedSentiment_eq_foldl]
      exact dates_fold_of_mem_data data [] r hr hne
    have hmem2 : r.dateOfTweet ∈ (processSentimentOverTime data).map (fun e => e.date) := by
      unfold processSentimentOverTime
      exact (((List.perm_insertionSort sentLe (groupedSentiment data)).map
        (fun e => e.date)).mem_iff).2 hmem
    rcases List.mem_map.1 hmem2 with ⟨b, hb, hbd⟩
    exact ⟨b, hb, hbd⟩
  · intro row hne hnr
    have h1 : jsToLower row.sentimentText ≠ "positive" := by
      intro h; simp [recognizedB, h] at hnr
    have h2 : jsToLower row.sentimentText ≠ "negative" := by
      intro h; simp [recognizedB, h] at hnr
    have h3 : jsToLower row.sentimentText ≠ "neutral" := by
      intro h; simp [recognizedB, h] at hnr
    unfold processSentimentOverTime groupedSentiment
    simp only [List.foldl_cons, List.foldl_nil, if_neg hne]
    unfold upsertSentiment updateSentiment emptySentiment
    simp [h1, h2, h3, List.insertionSort]

/-- C2: under `monthly` granularity, every contributing row's bucket key is
its date normalized to the first calendar day of the month; two rows in the
same calendar month get the same key even with different days of month; and
every bucket key the monthly aggregator emits has day 1. Settled against the
spec-modelled `aggregateSentimentOverTime` (the granularity-aware source
function is not among the provided files). -/
theorem aggregateSentimentOverTime_monthly_first_of_month :
    (∀ (row : RawData) (y m d : Nat), jsParseDate row.dateOfTweet = some ⟨y, m, d⟩ →
        rowBucketKey .monthly row = some ⟨y, m, 1⟩) ∧
      (∀ (r1 r2 : RawData) (y m d1 d2 : Nat),
        jsParseDate r1.dateOfTweet = some ⟨y, m, d1⟩ →
        jsParseDate r2.dateOfTweet = some ⟨y, m, d2⟩ →
        rowBucketKey .monthly r1 = rowBucketKey .monthly r2) ∧
      ∀ data : List RawData, ∀ b ∈ aggregateSentimentOverTime data .monthly,
        b.bucketKey.day = 1 := by
  have hfirst : ∀ (row : RawData) (y m d : Nat),
      jsParseDate row.dateOfTweet = some ⟨y, m, d⟩ →
      rowBucketKey .monthly row = some ⟨y, m, 1⟩ := by
    intro row y m d h
    simp [rowBucketKey, h, bucketDate]
  refine ⟨hfirst, ?_, ?_⟩
  · intro r1 r2 y m d1 d2 h1 h2
    rw [hfirst r1 y m d1 h1, hfirst r2 y m d2 h2]
  · intro data b hb
    have hb2 : b ∈ data.foldl (bucketStep .monthly) [] := by
      rw [aggregateSentimentOverTime_eq_foldl] at hb
      exact (List.mem_insertionSort bucketLe).1 hb
    exact monthly_fold_day_one data [] (by simp)
      b.bucketKey (List.mem_map.2 ⟨b, hb2, rfl⟩)

/-- C2 (witness): the spec's end-to-end example: two January 2024 rows on
different days share the first-of-month key, and monthly aggregation yields
the single bucket keyed 2024-01-01 with one positive, one negative and the
coerced engagement sum 15. -/
theorem aggregateSentimentOverTime_monthly_first_of_month_witness :
    rowBucketKey .monthly ⟨"2024-01-05", "Positive", "10", "", "Fares", ""⟩ =
        rowBucketKey .monthly ⟨"2024-01-20", "Negative", "5", "", "FAIRS", ""⟩ ∧
      aggregateSentimentOverTime
        [⟨"2024-01-05", "Positive", "10", "", "Fares", ""⟩,
         ⟨"2024-01-20", "Negative", "5", "", "FAIRS", ""⟩] .monthly =
        [⟨⟨2024, 1, 1⟩, 1, 1, 0, 15, 0⟩] := by
  constructor
  · exact aggregateSentimentOverTime_monthly_first_of_month.2.1
      ⟨"2024-01-05", "Positive", "10", "", "Fares", ""⟩
      ⟨"2024-01-20", "Negative", "5", "", "FAIRS", ""⟩
      2024 1 5 20 (by decide) (by decide)
  · decide

/-- C6: with the `tags` category mode active and a non-empty tag selection,
the filter output does not depend on the topic selection at all: the topics
branch of the filter engine is unreachable. -/
theorem applyFilters_tags_mode_ignores_topics (data : List RawData)
    (cfg : FilterConfig) (t1 t2 : List String)
    (hmode : cfg.filterMode = FilterMode.tags) (hsel : cfg.selectedTags ≠ []) :
    applyFilters data { cfg with selectedTopics := t1 } =
      applyFilters data { cfg with selectedTopics := t2 } := by
  unfold applyFilters dateFiltered
  simp [hmode, hsel]

/-- C6 (witness): two runs differing only in the topic selection (one
non-empty, one empty) produce the same filtered rows. -/
theorem applyFilters_tags_mode_ignores_topics_witness :
    applyFilters
        [⟨"", "", "", "", "FAIRS", "Roads"⟩, ⟨"", "", "", "", "Safety", "Noise"⟩]
        ⟨"all", "", "", .tags, ["FARES"], ["Roads"]⟩ =
      applyFilters
        [⟨"", "", "", "", "FAIRS", "Roads"⟩, ⟨"", "", "", "", "Safety", "Noise"⟩]
        ⟨"all", "", "", .tags, ["FARES"], []⟩ := by
  exact applyFilters_tags_mode_ignores_topics
    [⟨"", "", "", "", "FAIRS", "Roads"⟩, ⟨"", "", "", "", "Safety", "Noise"⟩]
    ⟨"all", "", "", .tags, ["FARES"], []⟩ ["Roads"] [] rfl (by decide)

/-- C7: the date-range predicate is inclusive on both endpoints — a row
passes exactly when its parsed date lies between `start` and `end`
inclusive, rows with unparseable dates always failing; with `start = end`
exactly the rows whose parsed date equals that single day pass; and while a
custom range is active (and no category filter is), the filter engine keeps
precisely the rows satisfying this predicate. -/
theorem dateRange_inclusive_boundaries :
    (∀ (startS endS : String) (s e : SimpleDate) (row : RawData),
        parseISO startS = some s → parseISO endS = some e →
        (dateRangePred startS endS row = true ↔
          ∃ t, parseISO row.dateOfTweet = some t ∧
            dateIndex s ≤ dateIndex t ∧ dateIndex t ≤ dateIndex e)) ∧
      (∀ (startS : String) (s : SimpleDate) (row : RawData),
        parseISO startS = some s →
        (dateRangePred startS startS row = true ↔
          parseISO row.dateOfTweet = some s)) ∧
      ∀ (data : List RawData) (cfg : FilterConfig), cfg.timeframe = "custom" →
        cfg.customStart ≠ "" → cfg.customEnd ≠ "" →
        applyFilters data { cfg with filterMode := FilterMode.tags, selectedTags := [] } =
          data.filter (dateRangePred cfg.customStart cfg.customEnd) := by
  have main : ∀ (startS endS : String) (s e : SimpleDate) (row : RawData),
      parseISO startS = some s → parseISO endS = some e →
      (dateRangePred startS endS row = true ↔
        ∃ t, parseISO row.dateOfTweet = some t ∧
          dateIndex s ≤ dateIndex t ∧ dateIndex t ≤ dateIndex e) := by
    intro startS endS s e row hs he
    unfold dateRangePred
    rw [hs, he]
    cases hp : parseISO row.dateOfTweet with
    | none => simp
    | some t => simp [hp]
  refine ⟨main, ?_, ?_⟩
  · intro startS s row hs
    rw [main startS startS s s row hs hs]
    constructor
    · rintro ⟨t, ht, h1, h2⟩
      have : t = s := dateIndex_inj (parseISO_validRange ht) (parseISO_validRange hs)
        (Nat.le_antisymm h2 h1)
      exact this ▸ ht
    · intro h
      exact ⟨s, h, Nat.le_refl _, Nat.le_refl _⟩
  · intro data cfg hc h1 h2
    unfold applyFilters dateFiltered
    simp [hc, h1, h2]

/-- C7 (witness): a single-day range `2024-01-05 .. 2024-01-05` admits exactly
the row dated that day. -/
theorem dateRange_inclusive_boundaries_witness :
    (dateRangePred "2024-01-05" "2024-01-05" ⟨"2024-01-05", "", "", "", "", ""⟩ = true ↔
        parseISO "2024-01-05" = some ⟨2024, 1, 5⟩) ∧
      dateRangePred "2024-01-05" "2024-01-05" ⟨"2024-01-06", "", "", "", "", ""⟩ = false ∧
      dateRangePred "2024-01-05" "2024-01-05" ⟨"not-a-date", "", "", "", "", ""⟩ = false :=
  ⟨dateRange_inclusive_boundaries.2.1 "2024-01-05" ⟨2024, 1, 5⟩
      ⟨"2024-01-05", "", "", "", "", ""⟩ (by decide),
    by decide, by decide⟩

/-- C8: filtering is idempotent — applying the filter engine to its own
output under the same configuration returns that output unchanged. -/
theorem applyFilters_idempotent (data : List RawData) (cfg : FilterConfig) :
    applyFilters (applyFilters data cfg) cfg = applyFilters data cfg := by
  unfold applyFilters dateFiltered
  split_ifs <;>
    first
      | rfl
      | exact filter_self_idem _ _
      | exact filter_four _ _ _

/-- C10: in the dashboard's stat-card reduce, every row whose lowercased
sentiment is neither `positive` nor `negative` is counted as neutral, so the
three counters always sum to the number of rows; the aggregators instead
leave such rows out of all three counters (the same `mixed` row yields
neutral 1 in the totals but neutral 0 in its sentiment bucket). -/
theorem dashboardTotals_neutral_fallback (data : List RawData) :
    (dashboardTotals data).positive + (dashboardTotals data).negative +
        (dashboardTotals data).neutral = data.length ∧
      (dashboardTotals [⟨"2024-01-05", "mixed", "", "", "", ""⟩]).neutral = 1 ∧
      (processSentimentOverTime [⟨"2024-01-05", "mixed", "", "", "", ""⟩]).map
        (fun e => e.neutral) = [0] := by
  refine ⟨?_, by decide, by decide⟩
  rw [dashboardTotals_eq_foldl]
  simpa using totals_fold_sum data ⟨0, 0, 0, 0, 0⟩

/-- C9 (witness): the amended behavior at a concrete unrecognized-sentiment
row with a non-numeric reply field. -/
theorem aggregators_graceful_degradation_witness :
    (⟨"2024-01-05", 0, 0, 0, 7, 0⟩ : ProcessedSentiment).date ≠ "" ∧
      processSentimentOverTime [⟨"2024-01-05", "mixed", "7", "abc", "", ""⟩] =
        [⟨"2024-01-05", 0, 0, 0, 7, 0⟩] := by
  constructor
  · exact aggregators_graceful_degradation.2.1
      [⟨"2024-01-05", "mixed", "7", "abc", "", ""⟩]
      ⟨"2024-01-05", 0, 0, 0, 7, 0⟩ (by decide)
  · rw [aggregators_graceful_degradation.2.2.2
      ⟨"2024-01-05", "mixed", "7", "abc", "", ""⟩ (by decide) (by decide)]
    decide

end BRTDashboard

